import Mathlib

/-!
Shallow embedding of the core numerical routines of `torch_rl/trpo.py`
(TRPO: advantage estimation, conjugate gradient, backtracking line
search, and the step-size / commit logic of `trpo_update`), together
with theorems settling the specification claims.

Flattened parameter vectors and per-step tensors are modelled as
`List ℚ`; torch scalar arithmetic is modelled by exact rational
arithmetic.  Comparisons of Euclidean norms are modelled by the
corresponding comparisons of squared norms (`x ↦ x^2` is strictly
monotone on nonnegatives, so `‖u‖ < ‖v‖ ↔ normSq u < normSq v`);
in particular `torch.norm r < 1e-10` is embedded as
`normSq r < (1e-10)^2`.
-/

namespace TorchRl

/-- Elementwise vector addition (`u + v` on torch tensors). -/
def vadd (u v : List ℚ) : List ℚ := List.zipWith (· + ·) u v

/-- Elementwise vector subtraction (`u - v` on torch tensors). -/
def vsub (u v : List ℚ) : List ℚ := List.zipWith (· - ·) u v

/-- Scalar multiplication (`a * v` on torch tensors). -/
def smul (a : ℚ) (v : List ℚ) : List ℚ := v.map (a * ·)

/-- Elementwise negation (`-v` on torch tensors). -/
def vneg (v : List ℚ) : List ℚ := v.map (fun x => -x)

/-- `torch.dot u v`. -/
def dot (u v : List ℚ) : ℚ := (List.zipWith (· * ·) u v).sum

/-- Squared Euclidean norm: `(torch.norm v)^2`. -/
def normSq (v : List ℚ) : ℚ := dot v v

/-- `torch.zeros_like` on a vector of the given length. -/
def zeros (n : Nat) : List ℚ := List.replicate n 0

/-- One step of the backward loop of `estimate_advantage`
(`trpo.py` lines 44-50), processing time index `i`.  The triple `vrm`
is `(values[i], rewards[i], masks[i])`; the state carries the running
scalars `(prev_return, prev_value, prev_advantage)` and the output
lists built so far (entries `i+1 .. T-1`).  Note the code updates
`prev_value` to `values.data[i,0]`, the input value estimate at `i`. -/
def gaeStep (gamma tau : ℚ) (vrm : ℚ × ℚ × ℚ)
    (st : ℚ × ℚ × ℚ × List ℚ × List ℚ) : ℚ × ℚ × ℚ × List ℚ × List ℚ :=
  let v := vrm.1
  let r := vrm.2.1
  let m := vrm.2.2
  let prevReturn := st.1
  let prevValue := st.2.1
  let prevAdvantage := st.2.2.1
  let rets := st.2.2.2.1
  let advs := st.2.2.2.2
  let ret := r + gamma * prevReturn * m
  let delta := r + gamma * prevValue * m - v
  let adv := delta + gamma * tau * prevAdvantage * m
  (ret, v, adv, ret :: rets, adv :: advs)

/-- `estimate_advantage(value_net, states, rewards, actions, masks, gamma, tau)`
(`trpo.py` lines 33-52), with the value-network evaluation abstracted
into the input list `values` (the spec's `value_estimates`).  The
Python loop runs `i` backward from `T-1` to `0` with running scalars
seeded at 0; the backward loop is a right fold over the zipped
per-step data. -/
def estimate_advantage (gamma tau : ℚ) (values rewards masks : List ℚ) :
    List ℚ × List ℚ :=
  let st := (values.zip (rewards.zip masks)).foldr (gaeStep gamma tau)
    (0, 0, 0, [], [])
  (st.2.2.2.1, st.2.2.2.2)

/-- The early-termination threshold of `conjugate_gradient`
(`threshold = 1e-10`, `trpo.py` line 59), squared: the code's test
`torch.norm(r) < 1e-10` is embedded as `normSq r < thresholdSq`. -/
def thresholdSq : ℚ := (1 / 10 ^ 10) ^ 2

/-- The `for i in range(N)` loop of `conjugate_gradient`
(`trpo.py` lines 63-72), with state `(x, r, p)`.  Each iteration
computes `_Hv = Hv(p)`, `alpha = (r·r)/(p·_Hv)`, updates
`x += alpha*p`, forms `r_next = r - alpha*_Hv`, then tests the
pre-update residual `r` against the threshold (returning the updated
`x` on early exit) and otherwise sets `beta = (r_next·r_next)/(r·r)`,
`p = r_next + beta*p`, `r = r_next`. -/
def cgLoop (Hv : List ℚ → List ℚ) : Nat → List ℚ → List ℚ → List ℚ → List ℚ
  | 0, x, _, _ => x
  | n + 1, x, r, p =>
    let hp := Hv p
    let alpha := dot r r / dot p hp
    let xNew := vadd x (smul alpha p)
    let rNext := vsub r (smul alpha hp)
    if normSq r < thresholdSq then xNew
    else cgLoop Hv n xNew rNext (vadd rNext (smul (dot rNext rNext / dot r r) p))

/-- `conjugate_gradient(Hv, b, N)` (`trpo.py` lines 54-73):
`x = torch.zeros_like(b)`, `r = b - Hv(x)`, `p = r`, then the loop. -/
def conjugate_gradient (Hv : List ℚ → List ℚ) (b : List ℚ) (N : Nat) : List ℚ :=
  let x := zeros b.length
  let r := vsub b (Hv x)
  cgLoop Hv N x r r

/-- Transcription of the claim C2 / spec §4.3 loop, written from the
spec's words: for up to `N` steps compute `Hp = Hv(p)`,
`alpha = (r·r)/(p·Hp)`, `x += alpha·p`, `r_next = r − alpha·Hp`;
terminate early (returning the updated `x`) exactly when the norm of
the pre-update residual `r` is below `1e-10`, the check placed after
updating `x` but before updating `p` and `r`; otherwise
`beta = (r_next·r_next)/(r·r)`, `p = r_next + beta·p`, `r = r_next`. -/
def cgSpecLoop (Hv : List ℚ → List ℚ) : Nat → List ℚ → List ℚ → List ℚ → List ℚ
  | 0, x, _, _ => x
  | n + 1, x, r, p =>
    let hp := Hv p
    let alpha := dot r r / dot p hp
    let xNew := vadd x (smul alpha p)
    let rNext := vsub r (smul alpha hp)
    if normSq r < thresholdSq then xNew
    else cgSpecLoop Hv n xNew rNext (vadd rNext (smul (dot rNext rNext / dot r r) p))

/-- Transcription of claim C2's initialization: `x = 0`, `r = b`,
`p = r`, then the loop, finally returning `x`. -/
def cgSpec (Hv : List ℚ → List ℚ) (b : List ℚ) (N : Nat) : List ℚ :=
  cgSpecLoop Hv N (zeros b.length) b b

/-- The `for j in range(max)` loop of `backtrack_line_search`
(`trpo.py` lines 91-101), with the model's parameter vector passed
functionally: `set_flat_params_to(model, candidate_params)` followed
by `f(False)` is `loss candidate_params`.  `m = torch.dot(grad_f, p)`
and `base = initial_loss = f(False).data` (the loss at `x`) are
computed by the caller.  Each attempt forms
`candidate_params = x + alpha * p`, accepts iff
`loss_diff / (m * alpha) > c` and `loss_diff > 0` where
`loss_diff = initial_loss - curr_loss`, and otherwise squares `alpha`
(line 100).  Exhaustion returns `(False, x + p)` (line 101). -/
def lsGo (loss : List ℚ → ℚ) (x p : List ℚ) (m base c : ℚ) :
    ℚ → Nat → Bool × List ℚ
  | _, 0 => (false, vadd x p)
  | alpha, n + 1 =>
    let cand := vadd x (smul alpha p)
    let lossDiff := base - loss cand
    if c < lossDiff / (m * alpha) ∧ 0 < lossDiff then (true, cand)
    else lsGo loss x p m base c (alpha * alpha) n

/-- `backtrack_line_search(model, f, grad_f, x, p, alpha_0, c, max)`
(`trpo.py` lines 76-101).  The loss closure `f` becomes a pure
function of the flat parameter vector; at entry the model holds `x`,
so `initial_loss` is `loss x`. -/
def backtrack_line_search (loss : List ℚ → ℚ) (grad_f x p : List ℚ)
    (alpha_0 c : ℚ) (max : Nat) : Bool × List ℚ :=
  lsGo loss x p (dot grad_f p) (loss x) c alpha_0 max

/-- The acceptance test of attempt `j` of the line search, written
from the claims' description: the scale of attempt `j` is
`alpha_0 ^ (2 ^ j)`, the candidate is `x + scale·p`, and the attempt
is accepted iff the improvement `loss x - loss candidate` exceeds `0`
and its ratio to the predicted improvement `(grad_f·p)·scale`
exceeds `c`. -/
def lsAccept (loss : List ℚ → ℚ) (grad_f x p : List ℚ) (alpha_0 c : ℚ)
    (j : Nat) : Prop :=
  let scale := alpha_0 ^ 2 ^ j
  let lossDiff := loss x - loss (vadd x (smul scale p))
  c < lossDiff / (dot grad_f p * scale) ∧ 0 < lossDiff

instance lsAccept.decidable (loss : List ℚ → ℚ) (grad_f x p : List ℚ)
    (alpha_0 c : ℚ) (j : Nat) :
    Decidable (lsAccept loss grad_f x p alpha_0 c j) := by
  unfold lsAccept
  infer_instance

/-- Index of the first accepted attempt among
`start, start+1, …, start+n-1`, if any. -/
def firstAccept (loss : List ℚ → ℚ) (grad_f x p : List ℚ)
    (alpha_0 c : ℚ) : Nat → Nat → Option Nat
  | _, 0 => none
  | start, n + 1 =>
    if lsAccept loss grad_f x p alpha_0 c start then some start
    else firstAccept loss grad_f x p alpha_0 c (start + 1) n

/-- The line-search invocation of `trpo_update` (`trpo.py` lines
176-181): `backtrack_line_search(policy, loss_fn, -g_vect,
old_params, full_step, policy.backtrack_coeff)`, with the control
parameter and attempt cap left at their defaults `c = 0.1`,
`max = 10`.  The backtracking coefficient enters only as the initial
scale `alpha_0`. -/
def trpo_line_search (loss : List ℚ → ℚ) (g_vect old_params full_step : List ℚ)
    (coeff : ℚ) : Bool × List ℚ :=
  backtrack_line_search loss (vneg g_vect) old_params full_step coeff (1 / 10) 10

/-- The commit step of `trpo_update` (`trpo.py` line 183):
`set_flat_params_to(policy, new_params)` is executed unconditionally
with the second component of the line-search result, on the success
and on the failure path alike; the resulting policy parameter vector
is therefore `(trpo_line_search …).2`. -/
def trpo_commit (loss : List ℚ → ℚ) (g_vect old_params full_step : List ℚ)
    (coeff : ℚ) : List ℚ :=
  (trpo_line_search loss g_vect old_params full_step coeff).2

/-- `denom = 0.5*torch.dot(direction,-g_vect)` (`trpo.py` line 170). -/
def step_denom (direction g_vect : List ℚ) : ℚ :=
  (1 / 2) * dot direction (vneg g_vect)

/-- The square of
`step_size = torch.sqrt(abs(denom)/policy.KL_bound)` (`trpo.py` line
171); the square root is left implicit since its argument is the
quantity of interest (it must be nonnegative for the step to be
well defined). -/
def step_size_sq (direction g_vect : List ℚ) (klBound : ℚ) : ℚ :=
  |step_denom direction g_vect| / klBound

/-- The squared Euclidean norm of
`full_step = direction / step_size` (`trpo.py` line 173):
`‖direction / step_size‖² = normSq direction / step_size²`.
Comparisons of `‖full_step‖` across parameter values are exactly
comparisons of this quantity. -/
def full_step_norm_sq (direction g_vect : List ℚ) (klBound : ℚ) : ℚ :=
  normSq direction / step_size_sq direction g_vect klBound

/-- Python tuple unpacking at `trpo.py` line 143,
`advantages, returns = estimate_advantage(...)`: the local
`advantages` of `trpo_update` is bound to the FIRST component of the
estimator's result — which `estimate_advantage` itself builds and
returns as `returns, advantages` (line 52), so the first component
holds the returns. -/
def trpo_advantages_var (gamma tau : ℚ) (values rewards masks : List ℚ) :
    List ℚ :=
  (estimate_advantage gamma tau values rewards masks).1

/-- The local `returns` of `trpo_update` after the unpacking at
`trpo.py` line 143 — the SECOND component of the estimator's result,
i.e. the estimator's advantages; this is the value `trpo_update`
returns at line 185. -/
def trpo_returns_var (gamma tau : ℚ) (values rewards masks : List ℚ) :
    List ℚ :=
  (estimate_advantage gamma tau values rewards masks).2

/-- `advantages.mean()` in `trpo.py` line 144. -/
def advantages_mean (a : List ℚ) : ℚ := a.sum / a.length

/-- The square of `advantages.std()` in `trpo.py` line 144: torch's
default standard deviation is the unbiased sample deviation, the
square root of `Σ (aᵢ - mean)² / (n - 1)`. -/
def advantages_variance (a : List ℚ) : ℚ :=
  ((a.map (fun y => (y - advantages_mean a) ^ 2)).sum) / ((a.length : ℚ) - 1)

/-- The normalization `advantages = (advantages - advantages.mean()) /
advantages.std()` (`trpo.py` line 144), with the scalar divisor
`std` (the square root of `advantages_variance a`, which leaves ℚ)
passed explicitly.  Every entry is divided by `std` unconditionally:
the code has no guard or error branch for `std = 0`. -/
def normalize_advantages (a : List ℚ) (std : ℚ) : List ℚ :=
  a.map (fun y => (y - advantages_mean a) / std)

/-- Invariant of the backward loop of `estimate_advantage`: the state
after folding over a length-`T` trajectory carries output lists of
length `T`, running scalars equal to (head of returns, head of
values, head of advantages) — the values at the most recently
processed index — and outputs satisfying the GAE recurrences. -/
lemma gae_fold_spec (gamma tau : ℚ) :
    ∀ (values rewards masks : List ℚ) (st : ℚ × ℚ × ℚ × List ℚ × List ℚ),
      rewards.length = values.length → masks.length = values.length →
      st = (values.zip (rewards.zip masks)).foldr (gaeStep gamma tau)
        (0, 0, 0, [], []) →
      st.2.2.2.1.length = values.length ∧
      st.2.2.2.2.length = values.length ∧
      st.1 = st.2.2.2.1.getD 0 0 ∧
      st.2.1 = values.getD 0 0 ∧
      st.2.2.1 = st.2.2.2.2.getD 0 0 ∧
      ∀ i, i < values.length →
        st.2.2.2.1.getD i 0 =
          rewards.getD i 0 + gamma * st.2.2.2.1.getD (i + 1) 0 * masks.getD i 0 ∧
        st.2.2.2.2.getD i 0 =
          (rewards.getD i 0 + gamma * values.getD (i + 1) 0 * masks.getD i 0
            - values.getD i 0)
            + gamma * tau * st.2.2.2.2.getD (i + 1) 0 * masks.getD i 0 := by
  intro values
  induction values with
  | nil =>
    intro rewards masks st h1 h2 hst
    simp only [List.length_nil] at h1 h2
    rw [List.length_eq_zero] at h1 h2
    subst h1; subst h2
    subst hst
    simp
  | cons v vs ih =>
    intro rewards masks st h1 h2 hst
    cases rewards with
    | nil => simp at h1
    | cons r rs =>
      cases masks with
      | nil => simp at h2
      | cons m ms =>
        simp only [List.length_cons, Nat.succ.injEq] at h1 h2
        obtain ⟨L1, L2, P1, P2, P3, REC⟩ :=
          ih rs ms ((vs.zip (rs.zip ms)).foldr (gaeStep gamma tau)
            (0, 0, 0, [], [])) h1 h2 rfl
        rw [List.zip_cons_cons, List.zip_cons_cons, List.foldr_cons] at hst
        simp only [gaeStep] at hst
        subst hst
        refine ⟨by simpa using L1, by simpa using L2, rfl, rfl, rfl, ?_⟩
        intro i hi
        cases i with
        | zero =>
          constructor
          · simp only [List.getD_cons_zero, List.getD_cons_succ]
            rw [← P1]
          · simp only [List.getD_cons_zero, List.getD_cons_succ]
            rw [← P2, ← P3]
        | succ j =>
          simp only [List.getD_cons_succ]
          exact REC j (by simpa using hi)

/-- With all rewards `0` and all masks `1`, the backward loop keeps
`prev_return = 0` and produces all-zero returns, whatever the value
estimates. -/
lemma gae_fold_zero_rewards (gamma tau : ℚ) :
    ∀ (values : List ℚ) (st : ℚ × ℚ × ℚ × List ℚ × List ℚ),
      st = (values.zip ((List.replicate values.length (0 : ℚ)).zip
        (List.replicate values.length (1 : ℚ)))).foldr (gaeStep gamma tau)
        (0, 0, 0, [], []) →
      st.1 = 0 ∧ st.2.2.2.1 = List.replicate values.length 0 := by
  intro values
  induction values with
  | nil => intro st hst; subst hst; simp
  | cons v vs ih =>
    intro st hst
    obtain ⟨H1, H2⟩ := ih ((vs.zip ((List.replicate vs.length (0 : ℚ)).zip
      (List.replicate vs.length (1 : ℚ)))).foldr (gaeStep gamma tau)
      (0, 0, 0, [], [])) rfl
    rw [List.length_cons, List.replicate_succ, List.replicate_succ,
      List.zip_cons_cons, List.zip_cons_cons, List.foldr_cons] at hst
    simp only [gaeStep] at hst
    subst hst
    constructor
    · rw [H1]; ring
    · simp only [List.length_cons]
      rw [List.replicate_succ, H1, H2]
      norm_num

/-- With all value estimates, rewards `0` and masks `1`, the backward
loop state stays identically zero: returns and advantages are all
zero. -/
lemma gae_fold_all_zero (gamma tau : ℚ) :
    ∀ (T : Nat) (st : ℚ × ℚ × ℚ × List ℚ × List ℚ),
      st = ((List.replicate T (0 : ℚ)).zip ((List.replicate T (0 : ℚ)).zip
        (List.replicate T (1 : ℚ)))).foldr (gaeStep gamma tau)
        (0, 0, 0, [], []) →
      st = (0, 0, 0, List.replicate T 0, List.replicate T 0) := by
  intro T
  induction T with
  | zero => intro st hst; simpa using hst
  | succ k ih =>
    intro st hst
    rw [List.replicate_succ, List.replicate_succ,
      List.zip_cons_cons, List.zip_cons_cons, List.foldr_cons,
      ih _ rfl] at hst
    simp only [gaeStep] at hst
    subst hst
    simp [List.replicate_succ]

/-- The loop transcribed from the claim's words coincides with the
code's loop at every state and fuel. -/
lemma cgSpecLoop_eq_cgLoop (Hv : List ℚ → List ℚ) :
    ∀ (n : Nat) (x r p : List ℚ),
      cgSpecLoop Hv n x r p = cgLoop Hv n x r p := by
  intro n
  induction n with
  | zero => intro x r p; rfl
  | succ k ih => intro x r p; simp only [cgSpecLoop, cgLoop, ih]

/-- Subtracting an all-zero vector of matching length is the
identity. -/
lemma vsub_zeros : ∀ b : List ℚ, vsub b (zeros b.length) = b := by
  intro b
  induction b with
  | nil => rfl
  | cons x xs ih =>
    simp only [vsub, zeros, List.length_cons, List.replicate_succ,
      List.zipWith_cons_cons, sub_zero] at *
    exact congrArg (x :: ·) ih

/-- Scaling by `1` is the identity. -/
lemma smul_one (p : List ℚ) : smul 1 p = p := by simp [smul]

/-- The line-search loop started at scale `alpha_0 ^ (2 ^ k)` with
`n` attempts left returns the candidate of the first accepted attempt
among `k, …, k+n-1`, and `(false, x + p)` if none is accepted. -/
lemma lsGo_eq_firstAccept (loss : List ℚ → ℚ) (grad_f x p : List ℚ)
    (alpha_0 c : ℚ) :
    ∀ (n k : Nat),
      lsGo loss x p (dot grad_f p) (loss x) c (alpha_0 ^ 2 ^ k) n =
        match firstAccept loss grad_f x p alpha_0 c k n with
        | some j => (true, vadd x (smul (alpha_0 ^ 2 ^ j) p))
        | none => (false, vadd x p) := by
  intro n
  induction n with
  | zero => intro k; simp [lsGo, firstAccept]
  | succ m ih =>
    intro k
    have hexp : lsGo loss x p (dot grad_f p) (loss x) c (alpha_0 ^ 2 ^ k) (m + 1) =
        if c < (loss x - loss (vadd x (smul (alpha_0 ^ 2 ^ k) p))) /
            (dot grad_f p * alpha_0 ^ 2 ^ k) ∧
            0 < loss x - loss (vadd x (smul (alpha_0 ^ 2 ^ k) p))
        then (true, vadd x (smul (alpha_0 ^ 2 ^ k) p))
        else lsGo loss x p (dot grad_f p) (loss x) c
          (alpha_0 ^ 2 ^ k * alpha_0 ^ 2 ^ k) m := rfl
    have hfa : firstAccept loss grad_f x p alpha_0 c k (m + 1) =
        if lsAccept loss grad_f x p alpha_0 c k then some k
        else firstAccept loss grad_f x p alpha_0 c (k + 1) m := rfl
    rw [hexp, hfa]
    by_cases h : c < (loss x - loss (vadd x (smul (alpha_0 ^ 2 ^ k) p))) /
        (dot grad_f p * alpha_0 ^ 2 ^ k) ∧
        0 < loss x - loss (vadd x (smul (alpha_0 ^ 2 ^ k) p))
    · rw [if_pos h, if_pos (show lsAccept loss grad_f x p alpha_0 c k from h)]
    · have hsq : alpha_0 ^ 2 ^ k * alpha_0 ^ 2 ^ k = alpha_0 ^ 2 ^ (k + 1) := by
        rw [pow_succ, mul_comm (2 ^ k) 2, two_mul, pow_add]
      rw [if_neg h, if_neg (show ¬ lsAccept loss grad_f x p alpha_0 c k from h),
        hsq]
      exact ih (k + 1)

/-- `firstAccept` finds `j` when every attempt from `start` up to `j`
is rejected and attempt `j` (within the budget) is accepted. -/
lemma firstAccept_eq_some (loss : List ℚ → ℚ) (grad_f x p : List ℚ)
    (alpha_0 c : ℚ) :
    ∀ (n start j : Nat), start ≤ j → j < start + n →
      (∀ k, start ≤ k → k < j → ¬ lsAccept loss grad_f x p alpha_0 c k) →
      lsAccept loss grad_f x p alpha_0 c j →
      firstAccept loss grad_f x p alpha_0 c start n = some j := by
  intro n
  induction n with
  | zero => intro start j h1 h2; omega
  | succ m ih =>
    intro start j h1 h2 hrej hacc
    have hfa : firstAccept loss grad_f x p alpha_0 c start (m + 1) =
        if lsAccept loss grad_f x p alpha_0 c start then some start
        else firstAccept loss grad_f x p alpha_0 c (start + 1) m := rfl
    rw [hfa]
    rcases Nat.eq_or_lt_of_le h1 with heq | hlt
    · subst heq; rw [if_pos hacc]
    · rw [if_neg (hrej start le_rfl hlt)]
      exact ih (start + 1) j hlt (by omega) (fun k hk1 hk2 => hrej k (by omega) hk2) hacc

/-- Whatever the outcome, the parameter vector produced by the line
search is `x` plus a nonzero multiple of `p` (the accepted candidate
`x + alpha_0^(2^j)·p`, or the fallback `x + p = x + 1·p`), provided
the initial scale is nonzero. -/
lemma line_search_snd_form (loss : List ℚ → ℚ) (grad_f x p : List ℚ)
    (alpha_0 c : ℚ) (n : Nat) (h0 : alpha_0 ≠ 0) :
    ∃ a : ℚ, a ≠ 0 ∧
      (backtrack_line_search loss grad_f x p alpha_0 c n).2 =
        vadd x (smul a p) := by
  have hmain := lsGo_eq_firstAccept loss grad_f x p alpha_0 c n 0
  have hbls : backtrack_line_search loss grad_f x p alpha_0 c n =
      lsGo loss x p (dot grad_f p) (loss x) c (alpha_0 ^ 2 ^ 0) n := by
    rw [pow_zero, pow_one]; rfl
  rw [hbls, hmain]
  cases hfa : firstAccept loss grad_f x p alpha_0 c 0 n with
  | none => exact ⟨1, one_ne_zero, by rw [smul_one]⟩
  | some j => exact ⟨alpha_0 ^ 2 ^ j, pow_ne_zero _ h0, rfl⟩

/-- Adding a nonzero multiple of a not-all-zero vector of matching
length changes the vector. -/
lemma vadd_smul_ne (a : ℚ) :
    ∀ (x p : List ℚ), p.length = x.length → a ≠ 0 →
      p ≠ zeros p.length → vadd x (smul a p) ≠ x := by
  intro x
  induction x with
  | nil =>
    intro p hlen _ hp
    have hpnil : p = [] := List.length_eq_zero.mp (by simpa using hlen)
    subst hpnil
    exact absurd rfl hp
  | cons xh xt ih =>
    intro p hlen ha hp
    cases p with
    | nil => simp at hlen
    | cons ph pt =>
      simp only [vadd, smul, List.map_cons, List.zipWith_cons_cons]
      intro hcontra
      rw [List.cons.injEq] at hcontra
      obtain ⟨h1, h2⟩ := hcontra
      have hph : ph = 0 := by
        have : a * ph = 0 := by linarith
        exact (mul_eq_zero.mp this).resolve_left ha
      have hpt : pt ≠ zeros pt.length := by
        intro hz
        apply hp
        simp only [zeros, List.length_cons, List.replicate_succ, hph]
        rw [List.cons.injEq]
        exact ⟨rfl, by simpa [zeros] using hz⟩
      exact ih pt (by simpa using hlen) ha hpt (by simpa [vadd, smul] using h2)

/-- Claim C1.  The claim states that `trpo_update` obtains the pair
`(returns, advantages)` in that order from the Advantage Estimator,
weights the surrogate loss with the normalized advantages, and
returns the computed returns.  The code at `trpo.py` line 143 unpacks
the estimator's `(returns, advantages)` result as
`advantages, returns = estimate_advantage(...)`, i.e. swapped: on the
trajectory with value estimates `[1]`, rewards `[0]`, masks `[1]`,
`gamma = tau = 1/2`, the estimator produces returns `[0]` and
advantages `[-1]`, yet the `advantages` local of `trpo_update` (the
surrogate weights before normalization) holds `[0]` — the returns —
and the `returns` local that `trpo_update` returns at line 185 holds
`[-1]` — the advantages. -/
theorem claim_C1_trpo_unpacks_estimator_swapped :
    estimate_advantage (1 / 2) (1 / 2) [1] [0] [1] = ([0], [-1]) ∧
    trpo_advantages_var (1 / 2) (1 / 2) [1] [0] [1] = [0] ∧
    trpo_returns_var (1 / 2) (1 / 2) [1] [0] [1] = [-1] ∧
    trpo_advantages_var (1 / 2) (1 / 2) [1] [0] [1] ≠
      (estimate_advantage (1 / 2) (1 / 2) [1] [0] [1]).2 := by
  refine ⟨?_, ?_, ?_, ?_⟩ <;>
    norm_num [estimate_advantage, gaeStep, trpo_advantages_var, trpo_returns_var]

/-- Claim C2: `conjugate_gradient(Hv, b, N)` initializes `x = 0`,
`r = b`, `p = r` and for up to `N` iterations computes `Hp = Hv(p)`,
`alpha = (r·r)/(p·Hp)`, `x += alpha·p`, `r_next = r − alpha·Hp`,
terminates early exactly when the norm of the pre-update residual `r`
is below `1e-10` — the check placed after updating `x` but before
updating `p` and `r` — and otherwise sets
`beta = (r_next·r_next)/(r·r)`, `p = r_next + beta·p`, `r = r_next`,
finally returning `x`.  The code initializes `r = b - Hv(0)`; for the
(linear) curvature operator it is used with, `Hv(0) = 0`, under which
hypothesis the code equals the claim's transcription `cgSpec`. -/
theorem claim_C2_conjugate_gradient_matches_spec
    (Hv : List ℚ → List ℚ) (b : List ℚ) (N : Nat)
    (h0 : Hv (zeros b.length) = zeros b.length) :
    conjugate_gradient Hv b N = cgSpec Hv b N := by
  have hcode : conjugate_gradient Hv b N =
      cgLoop Hv N (zeros b.length) (vsub b (Hv (zeros b.length)))
        (vsub b (Hv (zeros b.length))) := rfl
  rw [hcode, h0, vsub_zeros]
  unfold cgSpec
  rw [cgSpecLoop_eq_cgLoop]

/-- Witness for C2 at the identity operator and `b = [1, 2]`,
`N = 3`. -/
theorem claim_C2_witness :
    (fun v : List ℚ => v) (zeros (List.length [(1 : ℚ), 2])) =
      zeros (List.length [(1 : ℚ), 2]) ∧
    conjugate_gradient (fun v : List ℚ => v) [1, 2] 3 =
      cgSpec (fun v : List ℚ => v) [1, 2] 3 :=
  ⟨rfl, claim_C2_conjugate_gradient_matches_spec (fun v => v) [1, 2] 3 rfl⟩

/-- Claim C3: on a length-`T` trajectory, `estimate_advantage`
iterates backward with running scalars `prev_return`, `prev_value`,
`prev_advantage` seeded at 0 and updated at each step to the values
at the index just processed, computing
`return[i] = reward[i] + gamma·prev_return·mask[i]`,
`delta[i] = reward[i] + gamma·prev_value·mask[i] − value_estimate[i]`,
`advantage[i] = delta[i] + gamma·tau·prev_advantage·mask[i]`, and
outputs returns and advantages of length `T`.  Equivalently (as
proved): both outputs have length `T`, and at each `i < T` they
satisfy the recurrences with `prev_return = returns[i+1]`,
`prev_value = value_estimate[i+1]`, `prev_advantage =
advantages[i+1]` (each read as 0 at `i = T−1`, the seed). -/
theorem claim_C3_estimate_advantage_recurrence (gamma tau : ℚ)
    (values rewards masks : List ℚ)
    (h1 : rewards.length = values.length)
    (h2 : masks.length = values.length) :
    (estimate_advantage gamma tau values rewards masks).1.length =
      values.length ∧
    (estimate_advantage gamma tau values rewards masks).2.length =
      values.length ∧
    ∀ i, i < values.length →
      (estimate_advantage gamma tau values rewards masks).1.getD i 0 =
        rewards.getD i 0 +
          gamma * (estimate_advantage gamma tau values rewards masks).1.getD
            (i + 1) 0 * masks.getD i 0 ∧
      (estimate_advantage gamma tau values rewards masks).2.getD i 0 =
        (rewards.getD i 0 + gamma * values.getD (i + 1) 0 * masks.getD i 0
          - values.getD i 0)
          + gamma * tau * (estimate_advantage gamma tau values rewards
            masks).2.getD (i + 1) 0 * masks.getD i 0 := by
  obtain ⟨L1, L2, _, _, _, REC⟩ :=
    gae_fold_spec gamma tau values rewards masks _ h1 h2 rfl
  exact ⟨L1, L2, REC⟩

/-- Witness for C3 on the trajectory `values = [3, 5]`,
`rewards = [1, 2]`, `masks = [1, 0]`, `gamma = 1/2`, `tau = 1/3`. -/
theorem claim_C3_witness :
    List.length [(1 : ℚ), 2] = List.length [(3 : ℚ), 5] ∧
    List.length [(1 : ℚ), 0] = List.length [(3 : ℚ), 5] ∧
    ((estimate_advantage (1 / 2) (1 / 3) [3, 5] [1, 2] [1, 0]).1.length =
        List.length [(3 : ℚ), 5] ∧
      (estimate_advantage (1 / 2) (1 / 3) [3, 5] [1, 2] [1, 0]).2.length =
        List.length [(3 : ℚ), 5] ∧
      ∀ i, i < List.length [(3 : ℚ), 5] →
        (estimate_advantage (1 / 2) (1 / 3) [3, 5] [1, 2] [1, 0]).1.getD i 0 =
          List.getD [(1 : ℚ), 2] i 0 +
            (1 / 2) * (estimate_advantage (1 / 2) (1 / 3) [3, 5] [1, 2]
              [1, 0]).1.getD (i + 1) 0 * List.getD [(1 : ℚ), 0] i 0 ∧
        (estimate_advantage (1 / 2) (1 / 3) [3, 5] [1, 2] [1, 0]).2.getD i 0 =
          (List.getD [(1 : ℚ), 2] i 0 +
            (1 / 2) * List.getD [(3 : ℚ), 5] (i + 1) 0 *
              List.getD [(1 : ℚ), 0] i 0 - List.getD [(3 : ℚ), 5] i 0)
            + (1 / 2) * (1 / 3) * (estimate_advantage (1 / 2) (1 / 3) [3, 5]
              [1, 2] [1, 0]).2.getD (i + 1) 0 * List.getD [(1 : ℚ), 0] i 0) :=
  ⟨rfl, rfl,
    claim_C3_estimate_advantage_recurrence (1 / 2) (1 / 3) [3, 5] [1, 2]
      [1, 0] rfl rfl⟩

/-- Claim C4: `backtrack_line_search` returns
`(True, x0 + scale·direction)` at the first attempt whose candidate
satisfies both `(baseline_loss − candidate_loss)/(m·scale) > control`
and `baseline_loss − candidate_loss > 0`, where `m = grad·direction`
and the baseline loss is evaluated at `x0`; if no attempt within
`max` attempts is accepted it returns `(False, x0 + direction)` — the
full un-shrunk step, never the unchanged `x0`.  (`firstAccept` /
`lsAccept` transcribe the acceptance condition; the scale of attempt
`j` is `alpha_0 ^ (2 ^ j)`.) -/
theorem claim_C4_line_search_returns_first_accepted
    (loss : List ℚ → ℚ) (grad_f x p : List ℚ) (alpha_0 c : ℚ) (max : Nat) :
    backtrack_line_search loss grad_f x p alpha_0 c max =
      match firstAccept loss grad_f x p alpha_0 c 0 max with
      | some j => (true, vadd x (smul (alpha_0 ^ 2 ^ j) p))
      | none => (false, vadd x p) := by
  have h := lsGo_eq_firstAccept loss grad_f x p alpha_0 c max 0
  rw [pow_zero, pow_one] at h
  exact h

/-- Claim C5: `trpo_update` always writes the parameters returned by
the line search into the policy (modelled by `trpo_commit`, the
unconditional `set_flat_params_to` of line 183), and given a nonzero
search direction the committed parameters differ from the old ones on
both the success path (`x + alpha_0^(2^j)·direction` with
`alpha_0^(2^j) ≠ 0`) and the failure path (`x + direction`): no
update cycle leaves the policy parameters unchanged. -/
theorem claim_C5_commit_always_mutates (loss : List ℚ → ℚ)
    (g_vect old_params full_step : List ℚ) (coeff : ℚ)
    (h0 : coeff ≠ 0) (hlen : full_step.length = old_params.length)
    (hnz : full_step ≠ zeros full_step.length) :
    trpo_commit loss g_vect old_params full_step coeff ≠ old_params := by
  obtain ⟨a, ha, heq⟩ := line_search_snd_form loss (vneg g_vect) old_params
    full_step coeff (1 / 10) 10 h0
  have hc : trpo_commit loss g_vect old_params full_step coeff =
      vadd old_params (smul a full_step) := heq
  rw [hc]
  exact vadd_smul_ne a old_params full_step hlen ha hnz

/-- Witness for C5: a loss constant at 0 rejects every attempt, and
the committed fallback `[0] + [1] = [1]` still differs from the old
parameters `[0]`. -/
theorem claim_C5_witness :
    ((1 : ℚ) / 2 ≠ 0) ∧
    List.length [(1 : ℚ)] = List.length [(0 : ℚ)] ∧
    [(1 : ℚ)] ≠ zeros (List.length [(1 : ℚ)]) ∧
    trpo_commit (fun _ => 0) [1] [0] [1] (1 / 2) ≠ [0] :=
  ⟨by norm_num, rfl, by norm_num [zeros],
    claim_C5_commit_always_mutates (fun _ => 0) [1] [0] [1] (1 / 2)
      (by norm_num) rfl (by norm_num [zeros])⟩

/-- Claim C6: in `trpo_update` the step scaling is
`denom = 0.5·(d·(−g))`, `step_size = sqrt(|denom| / KL_bound)`,
`full_step = d / step_size`; the absolute value makes the argument of
the square root nonnegative even when `denom ≤ 0` (approximation
error), so the step is well defined rather than failing: with
`KL_bound > 0` and `denom ≤ 0`, `step_size² = |denom|/KL_bound =
(−denom)/KL_bound ≥ 0`. -/
theorem claim_C6_abs_guards_step_size (direction g_vect : List ℚ)
    (klBound : ℚ) (hkl : 0 < klBound)
    (hneg : step_denom direction g_vect ≤ 0) :
    0 ≤ step_size_sq direction g_vect klBound ∧
    step_size_sq direction g_vect klBound =
      -(step_denom direction g_vect) / klBound := by
  constructor
  · exact div_nonneg (abs_nonneg _) hkl.le
  · unfold step_size_sq
    rw [abs_of_nonpos hneg]

/-- Witness for C6 at `d = [1]`, `g = [1]` (so `denom = −1/2 ≤ 0`)
and `KL_bound = 1`. -/
theorem claim_C6_witness :
    (0 : ℚ) < 1 ∧ step_denom [1] [1] ≤ 0 ∧
    (0 ≤ step_size_sq [1] [1] 1 ∧
      step_size_sq [1] [1] 1 = -(step_denom [1] [1]) / 1) :=
  ⟨by norm_num, by norm_num [step_denom, dot, vneg],
    claim_C6_abs_guards_step_size [1] [1] 1 (by norm_num)
      (by norm_num [step_denom, dot, vneg])⟩

/-- Counterexample to claim C7: the claim asserts
`‖full_step‖ = ‖d / sqrt(|denom|/KL_bound)‖` is monotonically
DECREASING in `KL_bound`.  At `d = [1]`, `g = [-4]`
(`denom = 2 ≠ 0`), raising `KL_bound` from 1 to 4 raises
`‖full_step‖²` from 1/2 to 2 (norm comparisons agree with
squared-norm comparisons), so the magnitude is increasing, not
decreasing, in `KL_bound`. -/
theorem claim_C7_counterexample :
    (0 : ℚ) < 1 ∧ (1 : ℚ) < 4 ∧ step_denom [1] [-4] ≠ 0 ∧
    full_step_norm_sq [1] [-4] 1 < full_step_norm_sq [1] [-4] 4 := by
  norm_num [full_step_norm_sq, step_size_sq, step_denom, dot, vneg, normSq]

/-- Claim C7, amended: with the direction `d` held fixed, the
magnitude of `full_step = d / sqrt(|denom|/KL_bound)` (compared via
its square `full_step_norm_sq`) is monotonically INCREASING in
`KL_bound` and monotonically decreasing in `|denom|`. -/
theorem claim_C7_full_step_monotonicity (d g1 g2 : List ℚ) (kl1 kl2 : ℚ)
    (hd : 0 < normSq d) (hkl1 : 0 < kl1) :
    (kl1 < kl2 → step_denom d g1 ≠ 0 →
      full_step_norm_sq d g1 kl1 < full_step_norm_sq d g1 kl2) ∧
    (step_denom d g1 ≠ 0 → |step_denom d g1| < |step_denom d g2| →
      full_step_norm_sq d g2 kl1 < full_step_norm_sq d g1 kl1) := by
  constructor
  · intro hlt hne
    unfold full_step_norm_sq step_size_sq
    rw [div_div_eq_mul_div, div_div_eq_mul_div,
      div_lt_div_iff_of_pos_right (abs_pos.mpr hne)]
    exact mul_lt_mul_of_pos_left hlt hd
  · intro hne hlt
    unfold full_step_norm_sq step_size_sq
    rw [div_div_eq_mul_div, div_div_eq_mul_div]
    exact div_lt_div_of_pos_left (mul_pos hd hkl1) (abs_pos.mpr hne) hlt

/-- Witness for the amended C7 at `d = [1]`, `g1 = [-2]`
(`denom = 1`), `g2 = [-4]` (`denom = 2`), `KL` bounds 1 and 4. -/
theorem claim_C7_witness :
    full_step_norm_sq [1] [-2] 1 < full_step_norm_sq [1] [-2] 4 ∧
    full_step_norm_sq [1] [-4] 1 < full_step_norm_sq [1] [-2] 1 :=
  ⟨(claim_C7_full_step_monotonicity [1] [-2] [-4] 1 4
      (by norm_num [normSq, dot]) (by norm_num)).1 (by norm_num)
      (by norm_num [step_denom, dot, vneg]),
    (claim_C7_full_step_monotonicity [1] [-2] [-4] 1 4
      (by norm_num [normSq, dot]) (by norm_num)).2
      (by norm_num [step_denom, dot, vneg])
      (by norm_num [step_denom, dot, vneg])⟩

/-- Claim C8: each failed line-search attempt squares the step scale
(`alpha = alpha*alpha`, line 100), so after `j` failed attempts the
scale equals `initial_scale^(2^j)`; and in `trpo_update`'s invocation
(`trpo_line_search`) the configured backtracking coefficient enters
only as that initial scale (the base `coeff` of the power below, with
control fixed at 0.1), never as a per-attempt multiplicative decay
factor: when the attempts `0, …, j−1` are rejected and attempt `j`
(within the cap of 10) is accepted, the search accepts the candidate
scaled by `coeff ^ (2 ^ j)`. -/
theorem claim_C8_scale_squares_each_attempt (loss : List ℚ → ℚ)
    (g_vect old_params full_step : List ℚ) (coeff : ℚ) (j : Nat)
    (hj : j < 10)
    (hrej : ∀ k, k < j →
      ¬ lsAccept loss (vneg g_vect) old_params full_step coeff (1 / 10) k)
    (hacc : lsAccept loss (vneg g_vect) old_params full_step coeff (1 / 10) j) :
    trpo_line_search loss g_vect old_params full_step coeff =
      (true, vadd old_params (smul (coeff ^ 2 ^ j) full_step)) := by
  have hfa := firstAccept_eq_some loss (vneg g_vect) old_params full_step
    coeff (1 / 10) 10 0 j (Nat.zero_le j) (by omega)
    (fun k _ hk => hrej k hk) hacc
  have h := lsGo_eq_firstAccept loss (vneg g_vect) old_params full_step
    coeff (1 / 10) 10 0
  rw [hfa] at h
  rw [pow_zero, pow_one] at h
  exact h

/-- Witness for C8: with `old_params = [0]`, `full_step = [1]`,
`coeff = 1/2` and a loss that improves only at `[1/4]`, attempt 0
(scale `1/2`) is rejected and attempt 1 is accepted at scale
`(1/2)^(2^1) = 1/4`. -/
theorem claim_C8_witness :
    (1 : Nat) < 10 ∧
    trpo_line_search (fun v => if v = [(1 : ℚ) / 4] then -1 else 0)
      [-1] [0] [1] (1 / 2) =
      (true, vadd [0] (smul ((1 / 2 : ℚ) ^ 2 ^ 1) [1])) :=
  ⟨by norm_num,
    claim_C8_scale_squares_each_attempt
      (fun v => if v = [(1 : ℚ) / 4] then -1 else 0) [-1] [0] [1] (1 / 2) 1
      (by norm_num)
      (by
        intro k hk
        have hk0 : k = 0 := by omega
        subst hk0
        norm_num [lsAccept, vadd, smul, dot, vneg])
      (by norm_num [lsAccept, vadd, smul, dot, vneg])⟩

/-- Claim C9 as stated is false: it asserts that for every vector of
value estimates, zero rewards and all-one masks make BOTH outputs of
the Advantage Estimator zero.  At `gamma = tau = 1/2` (inside the
claimed ranges), value estimates `[1]`, rewards `[0]`, masks `[1]`,
the advantages are `[-1] ≠ [0]` (the advantage at the last step is
`−value_estimate`). -/
theorem claim_C9_counterexample :
    (0 : ℚ) < 1 / 2 ∧ (1 / 2 : ℚ) < 1 ∧ (0 : ℚ) ≤ 1 / 2 ∧
    (1 / 2 : ℚ) ≤ 1 ∧
    ([(0 : ℚ)] = List.replicate 1 (0 : ℚ)) ∧
    ([(1 : ℚ)] = List.replicate 1 (1 : ℚ)) ∧
    (estimate_advantage (1 / 2) (1 / 2) [1] [0] [1]).2 ≠
      List.replicate 1 (0 : ℚ) := by
  norm_num [estimate_advantage, gaeStep]

/-- Claim C9, amended: for every `gamma ∈ (0,1)`, `tau ∈ [0,1]` and
every vector of value estimates, on a length-`T` trajectory with
all-zero rewards and all-one masks the RETURNS are all zero; the
advantages are all zero as well provided the value estimates are all
zero. -/
theorem claim_C9_zero_rewards_zero_returns (gamma tau : ℚ)
    (values : List ℚ) (T : Nat)
    (hg0 : 0 < gamma) (hg1 : gamma < 1) (ht0 : 0 ≤ tau) (ht1 : tau ≤ 1)
    (hT : values.length = T) :
    (estimate_advantage gamma tau values (List.replicate T 0)
      (List.replicate T 1)).1 = List.replicate T 0 ∧
    (values = List.replicate T 0 →
      (estimate_advantage gamma tau values (List.replicate T 0)
        (List.replicate T 1)).2 = List.replicate T 0) := by
  subst hT
  constructor
  · exact (gae_fold_zero_rewards gamma tau values _ rfl).2
  · intro hv
    show (estimate_advantage gamma tau values
      (List.replicate values.length 0) (List.replicate values.length 1)).2 =
      List.replicate values.length 0
    rw [hv]
    simp only [List.length_replicate]
    exact congrArg (fun s => s.2.2.2.2)
      (gae_fold_all_zero gamma tau values.length _ rfl)

/-- Witness for the amended C9 at `gamma = 1/2`, `tau = 1/3`,
`values = [0, 0]`, `T = 2`. -/
theorem claim_C9_witness :
    (0 : ℚ) < 1 / 2 ∧ (1 / 2 : ℚ) < 1 ∧ (0 : ℚ) ≤ 1 / 3 ∧
    (1 / 3 : ℚ) ≤ 1 ∧ List.length [(0 : ℚ), 0] = 2 ∧
    ((estimate_advantage (1 / 2) (1 / 3) [0, 0] (List.replicate 2 0)
        (List.replicate 2 1)).1 = List.replicate 2 0 ∧
      ([(0 : ℚ), 0] = List.replicate 2 0 →
        (estimate_advantage (1 / 2) (1 / 3) [0, 0] (List.replicate 2 0)
          (List.replicate 2 1)).2 = List.replicate 2 0)) :=
  ⟨by norm_num, by norm_num, by norm_num, by norm_num, rfl,
    claim_C9_zero_rewards_zero_returns (1 / 2) (1 / 3) [0, 0] 2
      (by norm_num) (by norm_num) (by norm_num) (by norm_num) rfl⟩

/-- Claim C10: there is a valid input to `trpo_update` on which the
advantage-normalization step `(advantages − mean) / std` (line 144,
which has no guard or error branch for `std = 0`) divides by a
standard deviation of zero: on the trajectory `values = [4, 7]`,
`rewards = [0, 0]`, `masks = [1, 1]`, `gamma = tau = 1/2`, the vector
reaching the normalization (the `advantages` local of `trpo_update`)
is the constant `[0, 0]`, and any `std` whose square is its unbiased
variance — i.e. torch's `advantages.std()` — is zero. -/
theorem claim_C10_normalization_divides_by_zero_std (std : ℚ)
    (hstd : std ^ 2 = advantages_variance
      (trpo_advantages_var (1 / 2) (1 / 2) [4, 7] [0, 0] [1, 1])) :
    trpo_advantages_var (1 / 2) (1 / 2) [4, 7] [0, 0] [1, 1] = [0, 0] ∧
    std = 0 := by
  have hadv : trpo_advantages_var (1 / 2) (1 / 2) [4, 7] [0, 0] [1, 1] =
      [0, 0] := by
    norm_num [trpo_advantages_var, estimate_advantage, gaeStep]
  refine ⟨hadv, ?_⟩
  rw [hadv] at hstd
  have hvar : advantages_variance [(0 : ℚ), 0] = 0 := by
    norm_num [advantages_variance, advantages_mean]
  rw [hvar] at hstd
  exact (pow_eq_zero_iff two_ne_zero).mp hstd

/-- Witness for C10 at `std = 0`. -/
theorem claim_C10_witness :
    ((0 : ℚ) ^ 2 = advantages_variance
      (trpo_advantages_var (1 / 2) (1 / 2) [4, 7] [0, 0] [1, 1])) ∧
    (trpo_advantages_var (1 / 2) (1 / 2) [4, 7] [0, 0] [1, 1] = [0, 0] ∧
      (0 : ℚ) = 0) :=
  ⟨by norm_num [advantages_variance, advantages_mean, trpo_advantages_var,
      estimate_advantage, gaeStep],
    claim_C10_normalization_divides_by_zero_std 0
      (by norm_num [advantages_variance, advantages_mean,
        trpo_advantages_var, estimate_advantage, gaeStep])⟩

end TorchRl
